import Mathlib

/-!
Verification development for `lib/oci_utils/impl/network_helpers.py`.

Strings from the Python source are modelled as `List Char` (the file is
ASCII text; Python byte strings are likewise modelled as `List Char` over
the byte range).  Python `None` values and absent dictionary keys are both
modelled as `Option.none`, matching the observable behaviour of
`dict.get`.  Fallible Python code (raised exceptions) is modelled with
`Option`, `none` standing for an escaped exception.
-/

namespace NetworkHelpers

/-- Python whitespace class used by `str.split()` / `str.strip()`
(ASCII fragment: space, tab, newline, carriage return, vertical tab,
form feed). -/
def pyIsSpace (c : Char) : Bool :=
  c = ' ' || c = '\t' || c = '\n' || c = '\r' || c = '\x0b' || c = '\x0c'

/-- Concatenation of a list of strings, i.e. Python `''.join(lines)`. -/
def pyJoin : List (List Char) → List Char
  | [] => []
  | l :: ls => l ++ pyJoin ls

/-- Auxiliary for `readlines`: accumulates the current (reversed) line. -/
def readlinesAux : List Char → List Char → List (List Char)
  | [], acc => if acc = [] then [] else [acc.reverse]
  | c :: cs, acc =>
    if c = '\n' then (acc.reverse ++ ['\n']) :: readlinesAux cs []
    else readlinesAux cs (c :: acc)

/-- Python `f.readlines()`: split the file content into lines, each line
keeping its terminating newline; a final unterminated line is kept as is. -/
def readlines (s : List Char) : List (List Char) :=
  readlinesAux s []

/-- Auxiliary for `pySplit`: accumulates the current (reversed) word. -/
def pySplitAux : List Char → List Char → List (List Char)
  | [], acc => if acc = [] then [] else [acc.reverse]
  | c :: cs, acc =>
    if pyIsSpace c then
      (if acc = [] then pySplitAux cs [] else acc.reverse :: pySplitAux cs [])
    else pySplitAux cs (c :: acc)

/-- Python `s.split()` with no argument: split on runs of whitespace,
discarding empty tokens. -/
def pySplit (s : List Char) : List (List Char) :=
  pySplitAux s []

/-- Python `s.strip()` (whitespace stripped from both ends). -/
def pyStrip (s : List Char) : List Char :=
  ((s.dropWhile pyIsSpace).reverse.dropWhile pyIsSpace).reverse

/-- ASCII lower-casing of one character, as Python `str.lower` acts on
the ASCII range. -/
def lowerChar (c : Char) : Char :=
  if 65 ≤ c.toNat ∧ c.toNat ≤ 90 then Char.ofNat (c.toNat + 32) else c

/-- ASCII upper-casing of one character, as Python `str.upper` acts on
the ASCII range. -/
def upperChar (c : Char) : Char :=
  if 97 ≤ c.toNat ∧ c.toNat ≤ 122 then Char.ofNat (c.toNat - 32) else c

/-- Python `s.lower()` (ASCII fragment). -/
def pyLower (s : List Char) : List Char := s.map lowerChar

/-- Python `s.upper()` (ASCII fragment). -/
def pyUpper (s : List Char) : List Char := s.map upperChar

/-- A string is lowercase when lowering it changes nothing. -/
def isLowerStr (s : List Char) : Prop := pyLower s = s

/-- A string is uppercase when uppering it changes nothing. -/
def isUpperStr (s : List Char) : Prop := pyUpper s = s

/-- Decimal digit character. -/
def digitChar : Nat → Char
  | 0 => '0' | 1 => '1' | 2 => '2' | 3 => '3' | 4 => '4'
  | 5 => '5' | 6 => '6' | 7 => '7' | 8 => '8' | _ => '9'

/-- Fuel-driven decimal rendering of a natural number (most significant
digit first); `fuel ≥ 1` and `fuel ≥ number of digits` make it total. -/
def natCharsAux : Nat → Nat → List Char
  | 0, _ => []
  | fuel + 1, n => if n < 10 then [digitChar n]
                   else natCharsAux fuel (n / 10) ++ [digitChar (n % 10)]

/-- Decimal rendering of a natural number, as Python `'%d' % n` for
`n ≥ 0`. -/
def natChars (n : Nat) : List Char := natCharsAux (n + 1) n

/-- Decimal rendering of an integer, as Python `'%d' % i`. -/
def intChars (i : Int) : List Char :=
  if i < 0 then '-' :: natChars i.natAbs else natChars i.toNat

/-- Value of a decimal digit character. -/
def digitVal (c : Char) : Nat := c.toNat - 48

/-- Is the character a decimal digit? -/
def isDigitChar (c : Char) : Bool := 48 ≤ c.toNat && c.toNat ≤ 57

/-- Parse a non-empty all-digit string as a natural number. -/
def parseDigits (s : List Char) : Option Nat :=
  if s ≠ [] ∧ s.all isDigitChar then
    some (s.foldl (fun acc c => acc * 10 + digitVal c) 0)
  else none

/-- Python `int(token)` on a whitespace-free token: optional sign
followed by decimal digits; anything else raises `ValueError`,
modelled as `none`. -/
def parseInt : List Char → Option Int
  | [] => none
  | '-' :: ds => (parseDigits ds).map (fun n => -(n : Int))
  | '+' :: ds => (parseDigits ds).map (fun n => (n : Int))
  | ds => (parseDigits ds).map (fun n => (n : Int))

/-! ## Route table registry editor

Embedding of `add_route_table` / `delete_route_table`
(`network_helpers.py` lines 332-410).  The registry file
`/etc/iproute2/rt_tables` and its backup `rt_tables.bck` form the state.

Modelled from the spec: the `sudo_utils` module is not under `src/`; per
the spec's Command Executor / Safety protocol sections,
`sudo_utils.copy_file` copies one file's content to the other path
(non-zero return on failure), `sudo_utils.write_to_file` replaces a
file's content (non-zero return on failure) and `sudo_utils.delete_file`
removes a file.  Failure of the backup copy and of the write are the two
failure points named by the spec; they are injected through the
`copyOk` / `writeOk` parameters, and the restore copy performed on the
write-failure path is modelled as carrying out the copy. -/
/-- State of the registry: the live file content and the backup file
content (`none` when the backup file does not exist). -/
structure FsState where
  live : List Char
  backup : Option (List Char)
deriving DecidableEq, Repr

/-- Shared backup/write/restore protocol of `add_route_table` and
`delete_route_table` (source lines 363-373 and 400-410): back the live
file up (abort on failure), write the new content (restore from backup
and keep the backup on failure), delete the backup on success. -/
def commitNewContent (newContent : List Char) (copyOk writeOk : Bool)
    (s : FsState) : Bool × FsState :=
  if copyOk = false then (false, s)
  else if writeOk = false then (false, ⟨s.live, some s.live⟩)
  else (true, ⟨newContent, none⟩)

/-- Numbers scraped by `add_route_table` from the registry lines (source
lines 347-354): every line whose stripped form is non-empty and that
does not start with `#` contributes `int(line.split()[0])`; a failing
`int` conversion raises, modelled as `none`. -/
def tablesNum : List (List Char) → Option (List Int)
  | [] => some []
  | l :: ls =>
    if pyStrip l ≠ [] ∧ l.head? ≠ some '#' then
      match (pySplit l).head? with
      | none => none
      | some t =>
        match parseInt t with
        | none => none
        | some n => (tablesNum ls).map (fun r => n :: r)
    else tablesNum ls

/-- The `for n in range(255)` scan of `add_route_table` (source lines
355-359): first number in `0..254` not in `nums`, `-1` if none. -/
def findFreeNumAux (nums : List Int) : Nat → Nat → Int
  | 0, _ => -1
  | k + 1, n => if (n : Int) ∈ nums then findFreeNumAux nums k (n + 1) else n

/-- Free table number chosen by `add_route_table`. -/
def findFreeNum (nums : List Int) : Int := findFreeNumAux nums 255 0

/-- The appended registry line `'%d\t%s\n' % (num, table_name)`. -/
def numLine (num : Int) (name : List Char) : List Char :=
  intChars num ++ '\t' :: (name ++ ['\n'])

/-- New registry content computed by `add_route_table` (source lines
346-361): all original lines plus the appended entry, joined;
`none` models the `int` conversion raising on a malformed line. -/
def addNewLines (content name : List Char) : Option (List Char) :=
  match tablesNum (readlines content) with
  | none => none
  | some nums => some (pyJoin (readlines content ++ [numLine (findFreeNum nums) name]))

/-- Source function `add_route_table(table_name)` (lines 332-373) over the
registry state, with injected outcomes for the backup copy and the
write; `none` models an exception escaping before any file is touched. -/
def add_route_table (name : List Char) (copyOk writeOk : Bool)
    (s : FsState) : Option (Bool × FsState) :=
  (addNewLines s.live name).map (fun nc => commitNewContent nc copyOk writeOk s)

/-- The filtering loop of `delete_route_table` (source lines 389-398):
keep each line unless it has more than one whitespace token and its
second token equals the table name. -/
def deleteKeptLines (name : List Char) : List (List Char) → List (List Char)
  | [] => []
  | l :: ls =>
    if 1 < (pySplit l).length ∧ (pySplit l).get? 1 = some name
    then deleteKeptLines name ls
    else l :: deleteKeptLines name ls

/-- New registry content computed by `delete_route_table`. -/
def deleteNewContent (content name : List Char) : List Char :=
  pyJoin (deleteKeptLines name (readlines content))

/-- Source function `delete_route_table(table_name)` (lines 376-410) over the
registry state, with injected outcomes for the backup copy and the
write. -/
def delete_route_table (name : List Char) (copyOk writeOk : Bool)
    (s : FsState) : Bool × FsState :=
  commitNewContent (deleteNewContent s.live name) copyOk writeOk s

/-! ## Prefix to netmask (source lines 413-424) -/
/-- Python `pack('>I', bits)`: the four big-endian bytes of a 32-bit value. -/
def pack_be32 (bits : Nat) : List Nat :=
  [bits / 16777216 % 256, bits / 65536 % 256, bits / 256 % 256, bits % 256]

/-- Python `inet_ntoa`: render four bytes as a dotted-quad decimal string. -/
def inet_ntoa (bytes : List Nat) : List Char :=
  match bytes with
  | [] => []
  | [b] => natChars b
  | b :: bs => natChars b ++ '.' :: inet_ntoa bs

/-- Source function `network_prefix_to_mask(prefix)` (lines 413-424):
`bits = 0xffffffff ^ (1 << 32 - prefix) - 1` — by Python precedence
`0xffffffff ^ ((1 << (32 - prefix)) - 1)` — rendered through
`inet_ntoa(pack('>I', bits))`.  The argument is the prefix length; the
source takes a Python int and raises for negative shift amounts
(prefix > 32), so the claims restrict to `0..32` where `Nat`
subtraction agrees. -/
def network_prefix_to_mask (p : Nat) : List Char :=
  let bits := 0xffffffff ^^^ ((1 <<< (32 - p)) - 1)
  inet_ntoa (pack_be32 bits)

/-- Canonical CIDR netmask, written from the spec's words: the
big-endian rendering of the 32-bit value
`0xffffffff XOR (2^(32-prefix) - 1)` as four dot-separated decimal
octets. -/
def canonicalMask (p : Nat) : List Char :=
  let v := 0xffffffff ^^^ (2 ^ (32 - p) - 1)
  natChars (v / 2 ^ 24 % 256) ++ '.' :: (natChars (v / 2 ^ 16 % 256)
    ++ '.' :: (natChars (v / 2 ^ 8 % 256) ++ '.' :: natChars (v % 256)))

/-- A well-formed line: non-empty, with no interior newline. -/
def goodLine (l : List Char) : Prop := l ≠ [] ∧ '\n' ∉ l.dropLast

/-- A newline-terminated line. -/
def terminated (l : List Char) : Prop := l.getLast? = some '\n'

/-- The keep test of `delete_route_table`, as a Boolean on one line. -/
def keepLine (name l : List Char) : Bool :=
  decide ((pySplit l).length < 2) || !((pySplit l).get? 1 == some name)

/-! ## Topology inspector (source lines 39-202)

The per-link queries shell out to `ip` and parse its JSON output.  The
parsed JSON values are modelled structurally; a query result is
`Option (List _)`, where `none` models a command producing no output
(the code's `if not ip_info: return {}` path) and `some arr` models
output parsing as the JSON array `arr`.  Fields the code indexes
directly (`local`, `prefixlen`, `info_kind`, `info_data.id`, `address`)
are required — their absence would raise a `KeyError` /
`AttributeError` in the source, outside the behaviour the claims cover;
fields read with `.get` are `Option`s.  The `netaddr.IPNetwork` subnet
computation is an external library, abstracted as the `ipnet`
environment field. -/
/-- JSON `linkinfo` object inside `addr_info` (an empty or absent
`linkinfo` dict is falsy in Python; both are `none` here). -/
structure LinkInfoJ where
  info_kind : List Char
  info_data_id : Int
deriving DecidableEq

/-- One `addr_info` array entry (an empty dict `{}` entry is modelled
as `none` at its use site). -/
structure AddrInfoJ where
  linkinfo : Option LinkInfoJ
  broadcast : Option (List Char)
  prefixlen : Nat
  addr_local : List Char
deriving DecidableEq

/-- One object of the `ip address show` JSON array; `addr_info` may be
absent (`none`), and each entry may be the empty dict (`none`). -/
structure AddrObj where
  addr_info : Option (List (Option AddrInfoJ))
deriving DecidableEq

/-- One object of the `ip link show` JSON array. -/
structure LinkObj where
  address : List Char
  operstate : Option (List Char)
  link_type : Option (List Char)
deriving DecidableEq

/-- Result dict of `_fetch_ip_info` when non-empty. -/
structure IpRec where
  vlanid : Option Int
  broadcast : Option (List Char)
  address_prefix_l : Nat
  address : List Char
  address_subnet : List Char
deriving DecidableEq

/-- Result dict of `_fetch_link_info` when non-empty. -/
structure LinkRec where
  mac : List Char
  opstate : Option (List Char)
  ltype : Option (List Char)
deriving DecidableEq

/-- The scan loop of `_fetch_ip_info` (source lines 67-82): return a
record for the first array object having a non-empty `addr_info` whose
first entry is a non-empty dict. -/
def fetchIpScan (ipnet : List Char → Nat → List Char) :
    List AddrObj → Option IpRec
  | [] => none
  | obj :: rest =>
    match obj.addr_info with
    | some (some ai :: _) =>
      some { vlanid :=
               match ai.linkinfo with
               | some li => if li.info_kind = "vlan".data
                            then some li.info_data_id else none
               | none => none
             broadcast := ai.broadcast
             address_prefix_l := ai.prefixlen
             address := ai.addr_local
             address_subnet := ipnet ai.addr_local ai.prefixlen }
    | _ => fetchIpScan ipnet rest

/-- Source function `_fetch_ip_info` (lines 39-82) over the parsed query result
(`none` = the command produced no output, returning `{}`). -/
def fetch_ip_info (ipnet : List Char → Nat → List Char) :
    Option (List AddrObj) → Option IpRec
  | none => none
  | some objs => fetchIpScan ipnet objs

/-- Source function `_fetch_link_info` (lines 103-135, the second, effective
definition) over the parsed query result: the loop returns a record for
the first array object, upper-casing the MAC. -/
def fetch_link_info : Option (List LinkObj) → Option LinkRec
  | none => none
  | some [] => none
  | some (obj :: _) =>
    some { mac := pyUpper obj.address
           opstate := obj.operstate
           ltype := obj.link_type }

/-- Merged per-link record of `get_network_namespace_infos` (dict keys
of the two query results plus `index` and `device`; a key absent or
holding Python `None` is `none`). -/
structure NsLinkRecord where
  mac : Option (List Char)
  opstate : Option (List Char)
  ltype : Option (List Char)
  vlanid : Option Int
  broadcast : Option (List Char)
  address_prefix_l : Option Nat
  address : Option (List Char)
  address_subnet : Option (List Char)
  index : List Char
  device : List Char
deriving DecidableEq

/-- The merge `_new_info = link_info; _new_info.update(ip_info)` plus
the `len(keys) == 0` drop test (source lines 193-200): `none` when both
queries were empty, the merged record otherwise. -/
def mergeInfo (li : Option LinkRec) (ii : Option IpRec)
    (idx dev : List Char) : Option NsLinkRecord :=
  match li, ii with
  | none, none => none
  | _, _ =>
    some { mac := li.map LinkRec.mac
           opstate := li.bind LinkRec.opstate
           ltype := li.bind LinkRec.ltype
           vlanid := ii.bind IpRec.vlanid
           broadcast := ii.bind IpRec.broadcast
           address_prefix_l := ii.map IpRec.address_prefix_l
           address := ii.map IpRec.address
           address_subnet := ii.map IpRec.address_subnet
           index := idx
           device := dev }

/-- Environment of `get_network_namespace_infos`: the namespace listing,
the per-namespace link listing (pairs `(index, name)` as scraped by
`_get_link_names`), the two per-link query outputs, and the external
`netaddr.IPNetwork` subnet renderer. -/
structure NetEnv where
  namespaces : List (List Char)
  links : List Char → List (List Char × List Char)
  linkCmd : List Char → List Char → Option (List LinkObj)
  ipCmd : List Char → List Char → Option (List AddrObj)
  ipnet : List Char → Nat → List Char

/-- Inner loop of `get_network_namespace_infos` over one namespace's
links: merge the two queries per link, skipping links for which the
merge found nothing. -/
def processLinks (env : NetEnv) (ns : List Char)
    (links : List (List Char × List Char)) : List NsLinkRecord :=
  links.filterMap (fun p =>
    mergeInfo (fetch_link_info (env.linkCmd ns p.2))
      (fetch_ip_info env.ipnet (env.ipCmd ns p.2)) p.1 p.2)

/-- Source function `get_network_namespace_infos` (lines 165-202): namespace
list plus the default namespace `''`, each mapped to its link
records. -/
def get_network_namespace_infos (env : NetEnv) :
    List (List Char × List NsLinkRecord) :=
  (env.namespaces ++ [[]]).map (fun ns => (ns, processLinks env ns (env.links ns)))

/-- Spec-side selection: the first address object with a non-empty
`addr_info` whose first entry is a non-empty dict. -/
def selectAddr : List AddrObj → Option AddrInfoJ
  | [] => none
  | obj :: rest =>
    match obj.addr_info with
    | some (some ai :: _) => some ai
    | _ => selectAddr rest

/-- Spec-side test: does the address-level query's link metadata report
encapsulation kind `vlan`? -/
def reportsVlan (q : Option (List AddrObj)) : Bool :=
  match q with
  | none => false
  | some objs =>
    match selectAddr objs with
    | some ai =>
      match ai.linkinfo with
      | some li => decide (li.info_kind = "vlan".data)
      | none => false
    | none => false

/-- Concrete inspector environment for the C7 witness: one link whose
address-level metadata reports VLAN encapsulation with id 100. -/
def vlanEnv : NetEnv :=
  ⟨[], fun _ => [(['1'], ['e'])],
   fun _ _ => some [⟨"aa:bb".data, some ("UP".data), some ("ether".data)⟩],
   fun _ _ => some [⟨some [some ⟨some ⟨"vlan".data, 100⟩, none, 24,
     "10.0.0.2".data⟩]⟩],
   fun a _ => a⟩

/-- The link record `vlanEnv` produces. -/
def vlanRec : NsLinkRecord :=
  ⟨some ("AA:BB".data), some ("UP".data), some ("ether".data), some 100,
   none, some 24, some ("10.0.0.2".data), some ("10.0.0.2".data),
   ['1'], ['e']⟩

/-! ## Interface / PCI enumerator (source lines 205-297)

`get_interfaces` walks `/sys/class/net`, reading symlinks and the
`address` file per device; those reads form the environment below,
keyed by device name (path assembly is string plumbing).  Lines of the
`ip link show` output are Python 3 byte strings, modelled as
`List Char` over the byte range.  Python exceptions escaping
`get_interfaces` are modelled as `none`. -/
/-- One virtual-function record `{'pci_id': ..., 'mac': ...}`; the
`mac` key is absent (`none`) until set. -/
structure VfInfo where
  pci_id : List Char
  mac : Option (List Char)
deriving DecidableEq, Repr

/-- One interface record of `get_interfaces` (absent dict keys are
`none`). -/
structure IfaceInfo where
  physical : Bool
  mac : List Char
  pci : Option (List Char)
  physfn : Option (List Char)
  virtfns : Option (List (Int × VfInfo))
deriving DecidableEq, Repr

/-- Filesystem/command environment of `get_interfaces`:
`netDevs` is the device-directory listing; `ifaceLink` the device
symlink target (`none` = `OSError`, the device is skipped);
`addressFile` the content of the `address` file; `deviceLink` the
`device` symlink target; `physfnLink` the `physfn` symlink target
(`none` = `OSError`, meaning the device is itself a physical function);
`devDirs` the device directory listing; `virtfnLink` the per-`virtfn`
symlink target; `ipLinkOut` the `ip link show` output lines (byte
strings).  The reads the source performs outside any `try` block
(`deviceLink`, `addressFile`, `virtfnLink`, `devDirs`, `ipLinkOut`) are
modelled total: their failures would propagate out of `get_interfaces`
unhandled, a behaviour no claim covers. -/
structure SysEnv where
  netDevs : List (List Char)
  ifaceLink : List Char → Option (List Char)
  addressFile : List Char → List Char
  deviceLink : List Char → List Char
  physfnLink : List Char → Option (List Char)
  devDirs : List Char → List (List Char)
  virtfnLink : List Char → List Char → List Char
  ipLinkOut : List Char → List (List Char)

/-- Python `pci_id[pci_id.rfind('/') + 1:]`: the part after the last slash
(the whole string when there is none). -/
def pciIdOf (l : List Char) : List Char :=
  (l.reverse.takeWhile (fun c => c ≠ '/')).reverse

/-- Python dict assignment `d[k] = v` on an insertion-ordered
association list. -/
def updateAssoc {α β : Type} [DecidableEq α] :
    List (α × β) → α → β → List (α × β)
  | [], k, v => [(k, v)]
  | (k0, v0) :: rest, k, v =>
    if k0 = k then (k0, v) :: rest else (k0, v0) :: updateAssoc rest k v

/-- Python dict lookup `d[k]` / `d.get(k)` on an association list. -/
def lookupAssoc {α β : Type} [DecidableEq α] :
    List (α × β) → α → Option β
  | [], _ => none
  | (k0, v0) :: rest, k => if k0 = k then some v0 else lookupAssoc rest k

/-- Python 3 `str(bs)` for a bytes object `bs`: the `repr` of the
bytes, `b'...'` (or `b"..."` when the content holds a single quote and
no double quote).  Escaping of the content is omitted — only the
leading `b` and quote character matter here. -/
def pyStrOfBytes (bs : List Char) : List Char :=
  if '\'' ∈ bs ∧ '"' ∉ bs then 'b' :: '"' :: (bs ++ ['"'])
  else 'b' :: '\'' :: (bs ++ ['\''])

/-- One iteration of the VF MAC scraping loop (source lines 265-275):
`line = line.strip()`; the guard `str(line).startswith('vf ')` renders
the bytes line through `str`; were the guard ever true, the body's
`line.split(' ')` — `bytes.split` with a `str` separator — would raise
`TypeError` in Python 3, modelled as `none`. -/
def scrapeVfLine (line : List Char) (virt : List (Int × VfInfo)) :
    Option (List (Int × VfInfo)) :=
  if "vf ".data.isPrefixOf (pyStrOfBytes (pyStrip line)) then none
  else some virt

/-- The VF MAC scraping loop over all output lines. -/
def scrapeVfMacs : List (List Char) → List (Int × VfInfo) →
    Option (List (Int × VfInfo))
  | [], virt => some virt
  | line :: rest, virt =>
    match scrapeVfLine line virt with
    | none => none
    | some v => scrapeVfMacs rest v

/-- The `virtfn*` directory scan (source lines 254-261): each directory
entry starting with `virtfn` contributes `{'pci_id': readlink[3:]}`
keyed by `int(d[6:])`; a failing `int` conversion raises (`none`). -/
def buildVirtfnsAux (env : SysEnv) (n : List Char) :
    List (List Char) → List (Int × VfInfo) → Option (List (Int × VfInfo))
  | [], virt => some virt
  | d :: rest, virt =>
    if "virtfn".data.isPrefixOf d then
      match parseInt (d.drop 6) with
      | none => none
      | some num =>
        buildVirtfnsAux env n rest
          (updateAssoc virt num ⟨(env.virtfnLink n d).drop 3, none⟩)
    else buildVirtfnsAux env n rest virt

/-- Per-device body of the first `get_interfaces` loop (source lines
223-279).  Outer `none`: an exception escapes; inner `none`: `OSError`
reading the device symlink, the device is skipped; otherwise the
interface record and, for physical devices, the
`pci_id_to_iface[pci_id] = n` entry. -/
def processDev (env : SysEnv) (n : List Char) :
    Option (Option (IfaceInfo × Option (List Char))) :=
  match env.ifaceLink n with
  | none => some none
  | some link =>
    let mac := pyLower (pyStrip (env.addressFile n))
    if "../../devices/virtual".data.isPrefixOf link then
      some (some (⟨false, mac, none, none, none⟩, none))
    else
      let pci_id := pciIdOf (env.deviceLink n)
      match env.physfnLink n with
      | some phys =>
        some (some (⟨true, mac, some pci_id, some (phys.drop 3), none⟩,
          some pci_id))
      | none =>
        match buildVirtfnsAux env n (env.devDirs n) [] with
        | none => none
        | some virt =>
          match scrapeVfMacs (env.ipLinkOut n) virt with
          | none => none
          | some virt2 =>
            some (some (⟨true, mac, some pci_id, none, some virt2⟩,
              some pci_id))

/-- The first `get_interfaces` loop: builds `ret` and
`pci_id_to_iface` over all devices. -/
def pass1 (env : SysEnv) :
    List (List Char) → List (List Char × IfaceInfo) →
    List (List Char × List Char) →
    Option (List (List Char × IfaceInfo) × List (List Char × List Char))
  | [], ret, pmap => some (ret, pmap)
  | n :: rest, ret, pmap =>
    match processDev env n with
    | none => none
    | some none => pass1 env rest ret pmap
    | some (some (info, pciEntry)) =>
      pass1 env rest (updateAssoc ret n info)
        (match pciEntry with
         | none => pmap
         | some pci => updateAssoc pmap pci n)

/-- The reconciliation of one VF record (source lines 291-295):
`v['mac'] = ret[pci_id_to_iface[v['pci_id']]]['mac']`, any failure
caught and ignored. -/
def reconcileVf (ret : List (List Char × IfaceInfo))
    (pmap : List (List Char × List Char)) (v : VfInfo) : VfInfo :=
  match lookupAssoc pmap v.pci_id with
  | none => v
  | some ifname =>
    match lookupAssoc ret ifname with
    | none => v
    | some info2 => ⟨v.pci_id, some info2.mac⟩

/-- The second `get_interfaces` loop (source lines 281-295).  The
Python code mutates the nested VF dicts in place while iterating; since
only VF `mac` entries are written and only top-level `mac` entries are
read, mapping over the pass-1 result is equivalent. -/
def pass2 (ret : List (List Char × IfaceInfo))
    (pmap : List (List Char × List Char)) : List (List Char × IfaceInfo) :=
  ret.map (fun p =>
    if p.2.physical = false then p
    else
      match p.2.virtfns with
      | none => p
      | some vfs =>
        (p.1, ⟨p.2.physical, p.2.mac, p.2.pci, p.2.physfn,
          some (vfs.map (fun kv => (kv.1, reconcileVf ret pmap kv.2)))⟩))

/-- Source function `get_interfaces` (lines 205-297) over the filesystem
environment. -/
def get_interfaces (env : SysEnv) :
    Option (List (List Char × IfaceInfo)) :=
  match pass1 env env.netDevs [] [] with
  | none => none
  | some (ret, pmap) => some (pass2 ret pmap)

/-- Environment of the C8 failing input: one physical-function device
`p0` with one virtual function `virtfn0` whose PCI id
`0000:00:04.0` matches no enumerated interface, and whose
`ip link show` output contains a `vf 0` line carrying the MAC
`aa:bb:cc:dd:ee:0f`. -/
def vfEnv : SysEnv where
  netDevs := ["p0".data]
  ifaceLink := fun _ => some ("../../devices/pci0000:00/0000:00:03.0/net/p0".data)
  addressFile := fun _ => "02:00:17:00:00:01\n".data
  deviceLink := fun _ => "../../../0000:00:03.0".data
  physfnLink := fun _ => none
  devDirs := fun _ => ["virtfn0".data]
  virtfnLink := fun _ _ => "../0000:00:04.0".data
  ipLinkOut := fun _ =>
    ["vf 0 link/ether aa:bb:cc:dd:ee:0f brd ff:ff:ff:ff:ff:ff, spoof checking off".data]

/-- Invariant carried through the first `get_interfaces` pass: every
recorded MAC is the image of `pyLower`, and no virtual-function record
has a MAC yet. -/
def retInv (ret : List (List Char × IfaceInfo)) : Prop :=
  ∀ p ∈ ret, (∃ s, p.2.mac = pyLower s)
    ∧ (∀ vfs, p.2.virtfns = some vfs → ∀ kv ∈ vfs, kv.2.mac = none)

/-! ## Theorems -/
/-- The protocol result of `commitNewContent`, case by case. -/
theorem commitNewContent_spec (nc : List Char) (copyOk writeOk : Bool)
    (s : FsState) (b : Bool) (s' : FsState)
    (h : commitNewContent nc copyOk writeOk s = (b, s')) :
    (b = true ↔ copyOk = true ∧ writeOk = true)
    ∧ (b = false → s'.live = s.live)
    ∧ (copyOk = true → writeOk = false → s'.backup = some s.live)
    ∧ (copyOk = true → writeOk = true → s'.backup = none) := by
  cases copyOk <;> cases writeOk <;>
    simp [commitNewContent] at h <;>
    rcases h with ⟨hb, hs⟩ <;> subst hb <;> subst hs <;> simp

/-- C1: for `add_route_table` and `delete_route_table`, a failed backup
copy returns `False` with the live registry content unchanged; a failed
write after a successful backup restores the live file, so its content
equals the pre-call content, and `False` is returned; `True` is returned
exactly when both the backup and the write succeed. -/
theorem c1_backup_write_protocol (name : List Char) (copyOk writeOk : Bool)
    (s : FsState) :
    (∀ b s', add_route_table name copyOk writeOk s = some (b, s') →
      ((b = true ↔ copyOk = true ∧ writeOk = true)
        ∧ (b = false → s'.live = s.live)))
    ∧ (∀ b s', delete_route_table name copyOk writeOk s = (b, s') →
      ((b = true ↔ copyOk = true ∧ writeOk = true)
        ∧ (b = false → s'.live = s.live))) := by
  constructor
  · intro b s' h
    unfold add_route_table at h
    rcases hnc : addNewLines s.live name with _ | nc <;> rw [hnc] at h
    · simp at h
    · simp only [Option.map_some', Option.some.injEq] at h
      have := commitNewContent_spec nc copyOk writeOk s b s' h
      exact ⟨this.1, this.2.1⟩
  · intro b s' h
    have := commitNewContent_spec (deleteNewContent s.live name) copyOk writeOk s b s' h
    exact ⟨this.1, this.2.1⟩

/-- Witness for `c1_backup_write_protocol` at a concrete input: the
write step fails, so the call reports failure. -/
theorem c1_backup_write_protocol_witness :
    (false = true ↔ true = true ∧ false = true) :=
  (((c1_backup_write_protocol ['x'] true false
      ⟨"0\ta\n".data, none⟩).1 false
      ⟨"0\ta\n".data, some ("0\ta\n".data)⟩ (by decide)).1)

/-- C9: the backup file is deleted only on the success path: after a
write failure the backup still exists holding the pre-call registry
content, and after a fully successful call the backup no longer
exists — for both `add_route_table` and `delete_route_table`. -/
theorem c9_backup_lifecycle (name : List Char) (s : FsState) :
    (∀ b s', add_route_table name true false s = some (b, s') →
      s'.backup = some s.live)
    ∧ (∀ b s', add_route_table name true true s = some (b, s') →
      s'.backup = none)
    ∧ (delete_route_table name true false s).2.backup = some s.live
    ∧ (delete_route_table name true true s).2.backup = none := by
  refine ⟨?_, ?_, ?_, ?_⟩
  · intro b s' h
    unfold add_route_table at h
    rcases hnc : addNewLines s.live name with _ | nc <;> rw [hnc] at h
    · simp at h
    · simp only [Option.map_some', Option.some.injEq] at h
      exact (commitNewContent_spec nc true false s b s' h).2.2.1 rfl rfl
  · intro b s' h
    unfold add_route_table at h
    rcases hnc : addNewLines s.live name with _ | nc <;> rw [hnc] at h
    · simp at h
    · simp only [Option.map_some', Option.some.injEq] at h
      exact (commitNewContent_spec nc true true s b s' h).2.2.2 rfl rfl
  · exact (commitNewContent_spec (deleteNewContent s.live name) true false s _ _ rfl).2.2.1 rfl rfl
  · exact (commitNewContent_spec (deleteNewContent s.live name) true true s _ _ rfl).2.2.2 rfl rfl

/-- Witness for `c9_backup_lifecycle` at a concrete input: after a
failed write, the backup holds the pre-call content. -/
theorem c9_backup_lifecycle_witness :
    (FsState.mk ("0\ta\n".data) (some ("0\ta\n".data))).backup
      = some ("0\ta\n".data) :=
  ((c9_backup_lifecycle ['x'] ⟨"0\ta\n".data, none⟩).1 false
    ⟨"0\ta\n".data, some ("0\ta\n".data)⟩ (by decide))

/-- C4: for every prefix length in `0..32`, `network_prefix_to_mask`
returns the canonical CIDR dotted-quad netmask — the big-endian
rendering of `0xffffffff XOR (2^(32-prefix) - 1)` — and in particular
`22 ↦ "255.255.252.0"`, `24 ↦ "255.255.255.0"`,
`32 ↦ "255.255.255.255"`, `0 ↦ "0.0.0.0"`. -/
theorem c4_prefix_to_mask :
    (∀ p : Fin 33, network_prefix_to_mask p.val = canonicalMask p.val)
    ∧ network_prefix_to_mask 22 = "255.255.252.0".data
    ∧ network_prefix_to_mask 24 = "255.255.255.0".data
    ∧ network_prefix_to_mask 32 = "255.255.255.255".data
    ∧ network_prefix_to_mask 0 = "0.0.0.0".data := by
  decide

theorem pyJoin_readlinesAux (s : List Char) :
    ∀ acc, pyJoin (readlinesAux s acc) = acc.reverse ++ s := by
  induction s with
  | nil =>
    intro acc
    by_cases h : acc = [] <;> simp [readlinesAux, h, pyJoin]
  | cons c cs ih =>
    intro acc
    by_cases h : c = '\n'
    · subst h
      simp [readlinesAux, pyJoin, ih []]
    · simp [readlinesAux, h, ih (c :: acc)]

theorem pyJoin_readlines (s : List Char) : pyJoin (readlines s) = s := by
  simpa using pyJoin_readlinesAux s []

theorem pyJoin_append (L M : List (List Char)) :
    pyJoin (L ++ M) = pyJoin L ++ pyJoin M := by
  induction L with
  | nil => simp [pyJoin]
  | cons l ls ih => simp [pyJoin, ih]

theorem readlinesAux_body (body : List Char) (hb : '\n' ∉ body) :
    ∀ rest acc, readlinesAux (body ++ '\n' :: rest) acc
      = (acc.reverse ++ body ++ ['\n']) :: readlinesAux rest [] := by
  induction body with
  | nil => intro rest acc; simp [readlinesAux]
  | cons c cs ih =>
    intro rest acc
    have hc : c ≠ '\n' := fun h => hb (h ▸ List.mem_cons_self c cs)
    have hcs : '\n' ∉ cs := fun h => hb (List.mem_cons_of_mem c h)
    simp only [List.cons_append, readlinesAux, if_neg hc, List.append_eq]
    rw [ih hcs rest (c :: acc)]
    simp

theorem readlinesAux_no_nl (s : List Char) (hs : '\n' ∉ s) :
    ∀ acc, acc ≠ [] ∨ s ≠ [] →
      readlinesAux s acc = [acc.reverse ++ s] := by
  induction s with
  | nil =>
    intro acc h
    rcases h with h | h
    · simp [readlinesAux, h]
    · exact absurd rfl h
  | cons c cs ih =>
    intro acc _
    have hc : c ≠ '\n' := fun h => hs (h ▸ List.mem_cons_self c cs)
    have hcs : '\n' ∉ cs := fun h => hs (List.mem_cons_of_mem c h)
    simp only [readlinesAux, if_neg hc]
    rw [ih hcs (c :: acc) (Or.inl (by simp))]
    simp

theorem readlinesAux_cons_nl (cs acc : List Char) :
    readlinesAux ('\n' :: cs) acc = (acc.reverse ++ ['\n']) :: readlinesAux cs [] := by
  simp [readlinesAux]

theorem readlinesAux_cons_other (c : Char) (cs acc : List Char) (h : c ≠ '\n') :
    readlinesAux (c :: cs) acc = readlinesAux cs (c :: acc) := by
  simp [readlinesAux, h]

theorem readlinesAux_structure (s : List Char) :
    ∀ acc, '\n' ∉ acc →
      (∀ l ∈ readlinesAux s acc, goodLine l)
      ∧ (∀ l ∈ (readlinesAux s acc).dropLast, terminated l) := by
  induction s with
  | nil =>
    intro acc hacc
    by_cases h : acc = []
    · simp [readlinesAux, h]
    · constructor
      · intro l hl
        simp only [readlinesAux, if_neg h, List.mem_singleton] at hl
        subst hl
        refine ⟨by simpa using h, ?_⟩
        intro hmem
        exact hacc (by simpa using List.dropLast_subset _ hmem)
      · intro l hl
        simp [readlinesAux, h] at hl
  | cons c cs ih =>
    intro acc hacc
    by_cases h : c = '\n'
    · subst h
      have ihe := ih [] (by simp)
      rw [readlinesAux_cons_nl]
      constructor
      · intro l hl
        rcases List.mem_cons.mp hl with hl | hl
        · subst hl
          refine ⟨by simp, ?_⟩
          rw [List.dropLast_concat]
          intro hmem
          exact hacc (by simpa using hmem)
        · exact ihe.1 l hl
      · intro l hl
        rcases hr : readlinesAux cs [] with _ | ⟨r, rs⟩
        · rw [hr] at hl; simp at hl
        · rw [hr, List.dropLast_cons_of_ne_nil (by simp)] at hl
          rcases List.mem_cons.mp hl with hl | hl
          · subst hl
            exact List.getLast?_concat _
          · exact ihe.2 l (by rw [hr]; exact hl)
    · have hacc' : '\n' ∉ c :: acc := by
        intro hm
        rcases List.mem_cons.mp hm with hm | hm
        · exact h hm.symm
        · exact hacc hm
      rw [readlinesAux_cons_other c cs acc h]
      exact ih (c :: acc) hacc'

theorem readlines_structure (s : List Char) :
    (∀ l ∈ readlines s, goodLine l)
    ∧ (∀ l ∈ (readlines s).dropLast, terminated l) :=
  readlinesAux_structure s [] (by simp)

theorem readlinesAux_append_terminated (L : List (List Char))
    (hL : ∀ l ∈ L, goodLine l ∧ terminated l) :
    ∀ t, readlinesAux (pyJoin L ++ t) [] = L ++ readlinesAux t [] := by
  induction L with
  | nil => intro t; simp [pyJoin]
  | cons l ls ih =>
    intro t
    have hl := hL l (List.mem_cons_self l ls)
    have hlast : l.dropLast ++ ['\n'] = l := by
      have h1 : l ≠ [] := hl.1.1
      have h2 := List.dropLast_append_getLast h1
      rw [List.getLast_eq_iff_getLast?_eq_some h1 |>.mpr hl.2] at h2
      exact h2
    have hnb : '\n' ∉ l.dropLast := hl.1.2
    have hjoin : pyJoin (l :: ls) ++ t = l.dropLast ++ '\n' :: (pyJoin ls ++ t) := by
      conv_lhs => rw [pyJoin, ← hlast]
      simp
    rw [hjoin, readlinesAux_body l.dropLast hnb]
    rw [ih (fun x hx => hL x (List.mem_cons_of_mem l hx))]
    simp [hlast]

theorem pyJoin_concat (M : List (List Char)) (last : List Char) :
    pyJoin (M ++ [last]) = pyJoin M ++ last := by
  rw [pyJoin_append]
  simp [pyJoin]

theorem readlines_all_terminated (content : List Char)
    (h : content.getLast? = some '\n') :
    ∀ l ∈ readlines content, goodLine l ∧ terminated l := by
  intro l hl
  have hstruct := readlines_structure content
  refine ⟨hstruct.1 l hl, ?_⟩
  rcases List.eq_nil_or_concat (readlines content) with hc | ⟨M, last, hc⟩
  · rw [hc] at hl; simp at hl
  · rw [List.concat_eq_append] at hc
    have hlne : last ≠ [] := (hstruct.1 last (by rw [hc]; simp)).1
    have hcontent : content = pyJoin M ++ last := by
      conv_lhs => rw [← pyJoin_readlines content, hc, pyJoin_concat]
    have hterm : terminated last := by
      unfold terminated
      rw [← List.getLast?_append_of_ne_nil (pyJoin M) hlne, ← hcontent]
      exact h
    have hdrop : (readlines content).dropLast = M := by
      rw [hc]; exact List.dropLast_concat ..
    rcases List.mem_append.mp (by rw [← hc]; exact hl) with hm | hm
    · exact hstruct.2 l (hdrop ▸ hm)
    · have : l = last := by simpa using hm
      rw [this]; exact hterm

theorem pySplitAux_word (w : List Char) (hw : ∀ c ∈ w, pyIsSpace c = false) :
    ∀ rest acc, pySplitAux (w ++ rest) acc = pySplitAux rest (w.reverse ++ acc) := by
  induction w with
  | nil => intro rest acc; simp
  | cons c cs ih =>
    intro rest acc
    have hc : pyIsSpace c = false := hw c (List.mem_cons_self c cs)
    have hcs : ∀ x ∈ cs, pyIsSpace x = false := fun x hx => hw x (List.mem_cons_of_mem c hx)
    simp only [List.cons_append, pySplitAux, hc, Bool.false_eq_true, if_false, List.append_eq]
    rw [ih hcs rest (c :: acc)]
    simp

theorem pySplitAux_space (c : Char) (hc : pyIsSpace c = true) (rest acc : List Char)
    (hacc : acc ≠ []) :
    pySplitAux (c :: rest) acc = acc.reverse :: pySplitAux rest [] := by
  simp [pySplitAux, hc, hacc]

theorem pySplit_two_words (w1 w2 : List Char) (sep fin : Char)
    (h1 : ∀ c ∈ w1, pyIsSpace c = false) (h2 : ∀ c ∈ w2, pyIsSpace c = false)
    (hsep : pyIsSpace sep = true) (hfin : pyIsSpace fin = true)
    (hw1 : w1 ≠ []) (hw2 : w2 ≠ []) :
    pySplit (w1 ++ sep :: (w2 ++ [fin])) = [w1, w2] := by
  unfold pySplit
  rw [pySplitAux_word w1 h1]
  rw [List.append_nil]
  rw [pySplitAux_space sep hsep _ _ (by simpa using hw1)]
  rw [List.reverse_reverse]
  rw [pySplitAux_word w2 h2]
  rw [List.append_nil]
  rw [pySplitAux_space fin hfin _ _ (by simpa using hw2)]
  rw [List.reverse_reverse]
  simp [pySplitAux]

theorem digitChar_mem (d : Nat) :
    digitChar d ∈ ['0', '1', '2', '3', '4', '5', '6', '7', '8', '9'] := by
  rcases d with _|_|_|_|_|_|_|_|_|_ <;> simp [digitChar]

theorem mem_digits_not_space (c : Char)
    (h : c ∈ ['0', '1', '2', '3', '4', '5', '6', '7', '8', '9']) :
    pyIsSpace c = false := by
  fin_cases h <;> decide

theorem digitChar_not_space (d : Nat) : pyIsSpace (digitChar d) = false :=
  mem_digits_not_space _ (digitChar_mem d)

theorem natCharsAux_chars (fuel : Nat) :
    ∀ n c, c ∈ natCharsAux fuel n → c ∈ ['0', '1', '2', '3', '4', '5', '6', '7', '8', '9'] := by
  induction fuel with
  | zero => intro n c hc; simp [natCharsAux] at hc
  | succ fuel ih =>
    intro n c hc
    by_cases h : n < 10
    · simp only [natCharsAux, if_pos h, List.mem_singleton] at hc
      subst hc
      exact digitChar_mem n
    · simp only [natCharsAux, if_neg h, List.mem_append, List.mem_singleton] at hc
      rcases hc with hc | hc
      · exact ih (n / 10) c hc
      · subst hc
        exact digitChar_mem (n % 10)

theorem natChars_chars (n : Nat) (c : Char) (hc : c ∈ natChars n) :
    c ∈ ['0', '1', '2', '3', '4', '5', '6', '7', '8', '9'] :=
  natCharsAux_chars (n + 1) n c hc

theorem natChars_ne_nil (n : Nat) : natChars n ≠ [] := by
  unfold natChars natCharsAux
  by_cases h : n < 10 <;> simp [h]

theorem intChars_not_space (i : Int) (c : Char) (hc : c ∈ intChars i) :
    pyIsSpace c = false := by
  unfold intChars at hc
  by_cases h : i < 0
  · rw [if_pos h] at hc
    rcases List.mem_cons.mp hc with hc | hc
    · subst hc; decide
    · exact mem_digits_not_space c (natChars_chars _ c hc)
  · rw [if_neg h] at hc
    exact mem_digits_not_space c (natChars_chars _ c hc)

theorem intChars_ne_nil (i : Int) : intChars i ≠ [] := by
  unfold intChars
  by_cases h : i < 0
  · simp [h]
  · simp [h, natChars_ne_nil]

theorem intChars_no_nl (i : Int) (c : Char) (hc : c ∈ intChars i) : c ≠ '\n' := by
  intro hcon
  subst hcon
  have := intChars_not_space i '\n' hc
  simp [pyIsSpace] at this

theorem deleteKeptLines_eq_filter (name : List Char) (M : List (List Char)) :
    deleteKeptLines name M = M.filter (keepLine name) := by
  induction M with
  | nil => simp [deleteKeptLines]
  | cons l ls ih =>
    by_cases h : 1 < (pySplit l).length ∧ (pySplit l).get? 1 = some name
    · have hk : keepLine name l = false := by
        unfold keepLine
        rcases h with ⟨h1, h2⟩
        rw [h2]
        have hlen : ¬ (pySplit l).length < 2 := by omega
        simp [hlen]
      rw [deleteKeptLines, if_pos h]
      simp only [List.filter, hk]
      exact ih
    · have hk : keepLine name l = true := by
        unfold keepLine
        rcases Decidable.not_and_iff_or_not.mp h with h1 | h2
        · have : (pySplit l).length < 2 := by omega
          simp [this]
        · have hbeq : ((pySplit l).get? 1 == some name) = false :=
            beq_eq_false_iff_ne.mpr h2
          rw [hbeq]
          simp
      rw [deleteKeptLines, if_neg h]
      simp only [List.filter, hk]
      rw [ih]

theorem deleteKeptLines_append (name : List Char) (M N : List (List Char)) :
    deleteKeptLines name (M ++ N) = deleteKeptLines name M ++ deleteKeptLines name N := by
  simp [deleteKeptLines_eq_filter, List.filter_append]

theorem deleteKeptLines_all_kept (name : List Char) (M : List (List Char))
    (h : ∀ l ∈ M, ¬(1 < (pySplit l).length ∧ (pySplit l).get? 1 = some name)) :
    deleteKeptLines name M = M := by
  induction M with
  | nil => rfl
  | cons l ls ih =>
    rw [deleteKeptLines, if_neg (h l (List.mem_cons_self l ls))]
    rw [ih (fun x hx => h x (List.mem_cons_of_mem l hx))]

theorem findFreeNumAux_least (nums : List Int) :
    ∀ k start, (∃ j : Nat, start ≤ j ∧ j < start + k ∧ (j : Int) ∉ nums) →
      ∃ r : Nat, findFreeNumAux nums k start = (r : Int)
        ∧ start ≤ r ∧ r < start + k ∧ (r : Int) ∉ nums
        ∧ ∀ j : Nat, start ≤ j → j < r → (j : Int) ∈ nums := by
  intro k
  induction k with
  | zero =>
    intro start ⟨j, hj1, hj2, _⟩
    omega
  | succ k ih =>
    intro start ⟨j, hj1, hj2, hj3⟩
    by_cases hs : (start : Int) ∈ nums
    · have hjs : start + 1 ≤ j := by
        rcases Nat.eq_or_lt_of_le hj1 with h | h
        · exact absurd (h ▸ hs) hj3
        · omega
      obtain ⟨r, hr1, hr2, hr3, hr4, hr5⟩ :=
        ih (start + 1) ⟨j, hjs, by omega, hj3⟩
      refine ⟨r, ?_, by omega, by omega, hr4, ?_⟩
      · rw [findFreeNumAux, if_pos hs]
        exact hr1
      · intro i hi1 hi2
        rcases Nat.eq_or_lt_of_le hi1 with h | h
        · exact h ▸ hs
        · exact hr5 i (by omega) hi2
    · refine ⟨start, ?_, le_refl _, by omega, hs, fun i hi1 hi2 => absurd hi1 (by omega)⟩
      rw [findFreeNumAux, if_neg hs]

theorem readlines_single_good (l : List Char) (hg : goodLine l) :
    readlines l = [l] := by
  by_cases ht : l.getLast? = some '\n'
  · have h1 : l ≠ [] := hg.1
    have h2 := List.dropLast_append_getLast h1
    rw [List.getLast_eq_iff_getLast?_eq_some h1 |>.mpr ht] at h2
    unfold readlines
    conv_lhs => rw [← h2]
    rw [show l.dropLast ++ ['\n'] = l.dropLast ++ '\n' :: [] from rfl]
    rw [readlinesAux_body l.dropLast hg.2]
    simp [readlinesAux, h2]
  · have hnl : '\n' ∉ l := by
      intro hmem
      rcases List.eq_nil_or_concat l with hc | ⟨M, last, hc⟩
      · rw [hc] at hmem; simp at hmem
      · rw [List.concat_eq_append] at hc
        have hlast : l.getLast? = some last := by
          rw [hc]; exact List.getLast?_concat _
        have hdrop : l.dropLast = M := by
          rw [hc]; exact List.dropLast_concat ..
        rcases List.mem_append.mp (by rw [← hc]; exact hmem) with hm | hm
        · exact hg.2 (hdrop ▸ hm)
        · have heq : '\n' = last := by simpa using hm
          exact ht (heq ▸ hlast)
    unfold readlines
    rw [readlinesAux_no_nl l hnl [] (Or.inr hg.1)]
    simp

/-- C5: `delete_route_table` removes exactly the registry lines whose
second whitespace-delimited token equals the table name and keeps every
other line verbatim: the content it writes is the join of the original
lines filtered by that test, and re-reading the written content yields
exactly the kept original lines (comments, blank lines and short lines
unchanged). -/
theorem c5_delete_filters_lines (content name : List Char) :
    deleteNewContent content name
      = pyJoin ((readlines content).filter (keepLine name))
    ∧ readlines (deleteNewContent content name)
      = (readlines content).filter (keepLine name) := by
  have hcontent : deleteNewContent content name
      = pyJoin ((readlines content).filter (keepLine name)) := by
    unfold deleteNewContent
    rw [deleteKeptLines_eq_filter]
  refine ⟨hcontent, ?_⟩
  rw [hcontent]
  have hstruct := readlines_structure content
  rcases List.eq_nil_or_concat (readlines content) with hc | ⟨M, last, hc⟩
  · rw [hc]; simp [pyJoin, readlines, readlinesAux]
  · rw [List.concat_eq_append] at hc
    have hMgt : ∀ l ∈ M.filter (keepLine name), goodLine l ∧ terminated l := by
      intro l hl
      have hlM : l ∈ M := List.mem_of_mem_filter hl
      have hlL : l ∈ readlines content := by rw [hc]; exact List.mem_append_left _ hlM
      have hdrop : (readlines content).dropLast = M := by
        rw [hc]; exact List.dropLast_concat ..
      exact ⟨hstruct.1 l hlL, hstruct.2 l (hdrop ▸ hlM)⟩
    have hlastg : goodLine last :=
      hstruct.1 last (by rw [hc]; exact List.mem_append_right _ (by simp))
    rw [hc, List.filter_append]
    by_cases hk : keepLine name last = true
    · have hfl : [last].filter (keepLine name) = [last] := by simp [hk]
      rw [hfl, pyJoin_concat]
      unfold readlines
      rw [readlinesAux_append_terminated _ hMgt last]
      have := readlines_single_good last hlastg
      unfold readlines at this
      rw [this]
    · have hfl : [last].filter (keepLine name) = [] := by
        simp [List.filter, Bool.eq_false_iff.mpr hk]
      rw [hfl, List.append_nil]
      have : pyJoin (M.filter (keepLine name))
          = pyJoin (M.filter (keepLine name)) ++ [] := by simp
      rw [this]
      unfold readlines
      rw [readlinesAux_append_terminated _ hMgt []]
      simp [readlinesAux]

/-- C3: when at least one integer in `[0,254]` is absent from the
numbers parsed out of the registry's non-comment, non-blank lines,
`add_route_table` appends exactly one new entry whose number is the
smallest such absent integer; in particular the chosen number is never
one already present in the file. -/
theorem c3_smallest_free_number (content name : List Char) (nums : List Int)
    (k : Nat) (h1 : tablesNum (readlines content) = some nums)
    (h2 : k < 255) (h3 : (k : Int) ∉ nums) :
    0 ≤ findFreeNum nums ∧ findFreeNum nums < 255
    ∧ findFreeNum nums ∉ nums
    ∧ (∀ j : Int, 0 ≤ j → j < findFreeNum nums → j ∈ nums)
    ∧ addNewLines content name
        = some (content ++ numLine (findFreeNum nums) name) := by
  obtain ⟨r, hr1, _, hr3, hr4, hr5⟩ :=
    findFreeNumAux_least nums 255 0 ⟨k, Nat.zero_le k, by omega, h3⟩
  have hfr : findFreeNum nums = (r : Int) := hr1
  refine ⟨by rw [hfr]; exact_mod_cast Nat.zero_le r,
          by rw [hfr]; exact_mod_cast (by omega : r < 255),
          by rw [hfr]; exact hr4, ?_, ?_⟩
  · intro j hj0 hjr
    rw [hfr] at hjr
    have hjn : (j.toNat : Int) = j := Int.toNat_of_nonneg hj0
    have hmem : (j.toNat : Int) ∈ nums := hr5 j.toNat (Nat.zero_le _) (by omega)
    rwa [hjn] at hmem
  · unfold addNewLines
    rw [h1]
    show some (pyJoin (readlines content ++ [numLine (findFreeNum nums) name]))
      = some (content ++ numLine (findFreeNum nums) name)
    rw [pyJoin_concat, pyJoin_readlines]

/-- Witness for `c3_smallest_free_number`: with numbers `{0,1,2}`
present the appended entry uses number `3`. -/
theorem c3_smallest_free_number_witness :
    addNewLines ("0\ta\n1\tb\n2\tc\n".data) ("foo".data)
      = some ("0\ta\n1\tb\n2\tc\n".data
          ++ numLine (findFreeNum [(0 : Int), 1, 2]) ("foo".data)) :=
  (c3_smallest_free_number ("0\ta\n1\tb\n2\tc\n".data) ("foo".data)
    [(0 : Int), 1, 2] 3 (by decide) (by decide) (by decide)).2.2.2.2

/-- C2 counterexample: with initial registry content `"0\tfoo\n"` and
table name `"foo"`, a successful `add_route_table("foo")` followed by a
successful `delete_route_table("foo")` leaves the registry empty, not
equal to its original content — the delete also removes the
pre-existing `foo` line. -/
theorem c2_counterexample :
    add_route_table ("foo".data) true true ⟨"0\tfoo\n".data, none⟩
        = some (true, ⟨"0\tfoo\n1\tfoo\n".data, none⟩)
    ∧ delete_route_table ("foo".data) true true ⟨"0\tfoo\n1\tfoo\n".data, none⟩
        = (true, ⟨[], none⟩)
    ∧ ([] : List Char) ≠ "0\tfoo\n".data := by
  refine ⟨by decide, by decide, by decide⟩

/-- C2 (amended): when the initial registry content is empty or ends
with a newline, the table name is non-empty, whitespace-free and is not
the second token of any existing line, and the registry parses, a
successful `add_route_table(name)` followed immediately by a successful
`delete_route_table(name)` restores the registry content
byte-for-byte. -/
theorem c2_add_then_delete_restores (content name : List Char)
    (nums : List Int) (b0 : Option (List Char))
    (hterm : content = [] ∨ content.getLast? = some '\n')
    (hname_ne : name ≠ [])
    (hname_sp : ∀ c ∈ name, pyIsSpace c = false)
    (hfresh : ∀ l ∈ readlines content, ¬ (pySplit l).get? 1 = some name)
    (hparse : tablesNum (readlines content) = some nums) :
    add_route_table name true true ⟨content, b0⟩
        = some (true, ⟨content ++ numLine (findFreeNum nums) name, none⟩)
    ∧ delete_route_table name true true
          ⟨content ++ numLine (findFreeNum nums) name, none⟩
        = (true, ⟨content, none⟩) := by
  have hadd : addNewLines content name
      = some (content ++ numLine (findFreeNum nums) name) := by
    unfold addNewLines
    rw [hparse]
    show some (pyJoin (readlines content ++ [numLine (findFreeNum nums) name]))
      = some (content ++ numLine (findFreeNum nums) name)
    rw [pyJoin_concat, pyJoin_readlines]
  constructor
  · unfold add_route_table
    rw [hadd]
    rfl
  · have hLterm : ∀ l ∈ readlines content, goodLine l ∧ terminated l := by
      rcases hterm with h | h
      · subst h
        intro l hl
        simp [readlines, readlinesAux] at hl
      · exact readlines_all_terminated content h
    have hbody : numLine (findFreeNum nums) name
        = (intChars (findFreeNum nums) ++ '\t' :: name) ++ '\n' :: [] := by
      unfold numLine
      simp
    have hnlbody : '\n' ∉ intChars (findFreeNum nums) ++ '\t' :: name := by
      intro hmem
      rcases List.mem_append.mp hmem with hm | hm
      · exact intChars_no_nl _ _ hm rfl
      · rcases List.mem_cons.mp hm with hm | hm
        · exact absurd hm.symm (by decide)
        · have := hname_sp '\n' hm
          simp [pyIsSpace] at this
    have hsplitread : readlines (content ++ numLine (findFreeNum nums) name)
        = readlines content ++ [numLine (findFreeNum nums) name] := by
      unfold readlines
      conv_lhs => rw [← pyJoin_readlines content]
      rw [readlinesAux_append_terminated _ hLterm]
      rw [hbody, readlinesAux_body _ hnlbody]
      simp [readlinesAux]
      rfl
    have hsplitline : pySplit (numLine (findFreeNum nums) name)
        = [intChars (findFreeNum nums), name] := by
      unfold numLine
      exact pySplit_two_words _ _ '\t' '\n'
        (fun c hc => intChars_not_space _ c hc) hname_sp
        (by decide) (by decide) (intChars_ne_nil _) hname_ne
    have hdel : deleteNewContent
        (content ++ numLine (findFreeNum nums) name) name = content := by
      unfold deleteNewContent
      rw [hsplitread, deleteKeptLines_append]
      rw [deleteKeptLines_all_kept name (readlines content)
        (fun l hl hcon => hfresh l hl hcon.2)]
      have hrm : deleteKeptLines name [numLine (findFreeNum nums) name] = [] := by
        rw [deleteKeptLines,
          if_pos ⟨by rw [hsplitline]; simp, by rw [hsplitline]; rfl⟩]
        rfl
      rw [hrm, List.append_nil, pyJoin_readlines]
    unfold delete_route_table
    rw [hdel]
    rfl

/-- Witness for `c2_add_then_delete_restores` at a concrete input:
adding then deleting table `foo` on a one-line registry restores the
original content. -/
theorem c2_add_then_delete_restores_witness :
    add_route_table ("foo".data) true true ⟨"0\tmain\n".data, none⟩
        = some (true, ⟨"0\tmain\n".data
            ++ numLine (findFreeNum [(0 : Int)]) ("foo".data), none⟩)
    ∧ delete_route_table ("foo".data) true true
          ⟨"0\tmain\n".data ++ numLine (findFreeNum [(0 : Int)]) ("foo".data), none⟩
        = (true, ⟨"0\tmain\n".data, none⟩) :=
  c2_add_then_delete_restores ("0\tmain\n".data) ("foo".data) [(0 : Int)] none
    (by decide) (by decide) (by decide) (by decide) (by decide)

theorem fetchIpScan_eq_selectAddr (ipnet : List Char → Nat → List Char)
    (objs : List AddrObj) :
    fetchIpScan ipnet objs = (selectAddr objs).map (fun ai =>
      { vlanid :=
          match ai.linkinfo with
          | some li => if li.info_kind = "vlan".data
                       then some li.info_data_id else none
          | none => none
        broadcast := ai.broadcast
        address_prefix_l := ai.prefixlen
        address := ai.addr_local
        address_subnet := ipnet ai.addr_local ai.prefixlen }) := by
  induction objs with
  | nil => rfl
  | cons obj rest ih =>
    rcases h : obj.addr_info with _ | ais
    · simp only [fetchIpScan, selectAddr, h]
      exact ih
    · rcases ais with _ | ⟨ai, tl⟩
      · simp only [fetchIpScan, selectAddr, h]
        exact ih
      · rcases ai with _ | ai
        · simp only [fetchIpScan, selectAddr, h]
          exact ih
        · simp only [fetchIpScan, selectAddr, h, Option.map_some']

/-- C6: when a per-link query's underlying command produces no output,
`_fetch_link_info` and `_fetch_ip_info` return the empty result, and
`get_network_namespace_infos` continues: a link both of whose queries
are empty contributes nothing, and the remaining links are processed
exactly as if it were not listed. -/
theorem c6_empty_output_not_fatal (env : NetEnv) (ns idx dev : List Char)
    (hl : env.linkCmd ns dev = none) (hi : env.ipCmd ns dev = none) :
    fetch_link_info (env.linkCmd ns dev) = none
    ∧ fetch_ip_info env.ipnet (env.ipCmd ns dev) = none
    ∧ ∀ pre post, processLinks env ns (pre ++ (idx, dev) :: post)
        = processLinks env ns (pre ++ post) := by
  refine ⟨by rw [hl]; rfl, by rw [hi]; rfl, ?_⟩
  intro pre post
  unfold processLinks
  rw [List.filterMap_append, List.filterMap_append]
  congr 1
  rw [List.filterMap_cons]
  simp only [hl, hi]
  rfl

/-- Witness for `c6_empty_output_not_fatal` at a concrete environment:
a link whose two queries produce no output is simply skipped. -/
theorem c6_empty_output_not_fatal_witness :
    processLinks
        ⟨[], fun _ => [], fun _ _ => none, fun _ _ => none, fun _ _ => []⟩
        [] ([] ++ (['1'], ['e']) :: [])
      = processLinks
        ⟨[], fun _ => [], fun _ _ => none, fun _ _ => none, fun _ _ => []⟩
        [] ([] ++ []) :=
  (c6_empty_output_not_fatal
    ⟨[], fun _ => [], fun _ _ => none, fun _ _ => none, fun _ _ => []⟩
    [] ['1'] ['e'] rfl rfl).2.2 [] []

theorem mergeInfo_fields (li : Option LinkRec) (ii : Option IpRec)
    (idx dev : List Char) (rec : NsLinkRecord)
    (h : mergeInfo li ii idx dev = some rec) :
    rec.device = dev ∧ rec.vlanid = ii.bind IpRec.vlanid := by
  rcases li with _ | l <;> rcases ii with _ | i
  · simp [mergeInfo] at h
  · simp only [mergeInfo, Option.some.injEq] at h
    rw [← h]
    exact ⟨rfl, rfl⟩
  · simp only [mergeInfo, Option.some.injEq] at h
    rw [← h]
    exact ⟨rfl, rfl⟩
  · simp only [mergeInfo, Option.some.injEq] at h
    rw [← h]
    exact ⟨rfl, rfl⟩

theorem processLinks_vlanid (env : NetEnv) (ns : List Char)
    (rec : NsLinkRecord)
    (hrec : rec ∈ processLinks env ns (env.links ns)) :
    rec.vlanid.isSome = reportsVlan (env.ipCmd ns rec.device) := by
  unfold processLinks at hrec
  obtain ⟨p, _, hmerge⟩ := List.mem_filterMap.mp hrec
  obtain ⟨hdev, hvl⟩ := mergeInfo_fields _ _ _ _ _ hmerge
  rw [hdev, hvl]
  rcases hq : env.ipCmd ns p.2 with _ | objs
  · rfl
  · simp only [fetch_ip_info, reportsVlan]
    rw [fetchIpScan_eq_selectAddr]
    rcases hsel : selectAddr objs with _ | ai
    · rfl
    · rcases hli : ai.linkinfo with _ | li
      · simp [hli]
      · by_cases hk : li.info_kind = "vlan".data
        · simp [hli, hk]
        · simp [hli, hk]

/-- C7: in every link record returned by
`get_network_namespace_infos`, the VLAN id field is present exactly
when the address-level query's link metadata reports encapsulation kind
`"vlan"`; otherwise it is absent. -/
theorem c7_vlanid_iff_vlan_kind (env : NetEnv) (ns : List Char)
    (recs : List NsLinkRecord) (rec : NsLinkRecord)
    (hns : (ns, recs) ∈ get_network_namespace_infos env)
    (hrec : rec ∈ recs) :
    rec.vlanid.isSome = reportsVlan (env.ipCmd ns rec.device) := by
  unfold get_network_namespace_infos at hns
  obtain ⟨ns2, _, heq⟩ := List.mem_map.mp hns
  have h1 : ns2 = ns := congrArg Prod.fst heq
  have h2 : processLinks env ns2 (env.links ns2) = recs := congrArg Prod.snd heq
  rw [← h1]
  rw [← h2] at hrec
  exact processLinks_vlanid env ns2 rec hrec

/-- Witness for `c7_vlanid_iff_vlan_kind` at a concrete environment
whose one link reports VLAN encapsulation. -/
theorem c7_vlanid_iff_vlan_kind_witness :
    vlanRec.vlanid.isSome = reportsVlan (vlanEnv.ipCmd [] vlanRec.device) :=
  c7_vlanid_iff_vlan_kind vlanEnv [] [vlanRec] vlanRec (by decide) (by decide)

theorem char_toNat_ofNat (n : Nat) (h : n.isValidChar) :
    (Char.ofNat n).toNat = n := by
  rw [Char.ofNat, dif_pos h]
  rfl

theorem lowerChar_idem (c : Char) : lowerChar (lowerChar c) = lowerChar c := by
  unfold lowerChar
  by_cases h : 65 ≤ c.toNat ∧ c.toNat ≤ 90
  · rw [if_pos h]
    have ht : (Char.ofNat (c.toNat + 32)).toNat = c.toNat + 32 :=
      char_toNat_ofNat _ (Or.inl (by omega))
    rw [ht, if_neg (by omega)]
  · rw [if_neg h, if_neg h]

theorem upperChar_idem (c : Char) : upperChar (upperChar c) = upperChar c := by
  unfold upperChar
  by_cases h : 97 ≤ c.toNat ∧ c.toNat ≤ 122
  · rw [if_pos h]
    have ht : (Char.ofNat (c.toNat - 32)).toNat = c.toNat - 32 :=
      char_toNat_ofNat _ (Or.inl (by omega))
    rw [ht, if_neg (by omega)]
  · rw [if_neg h, if_neg h]

theorem pyLower_idem (s : List Char) : pyLower (pyLower s) = pyLower s := by
  unfold pyLower
  rw [List.map_map]
  exact List.map_congr_left (fun c _ => lowerChar_idem c)

theorem pyUpper_idem (s : List Char) : pyUpper (pyUpper s) = pyUpper s := by
  unfold pyUpper
  rw [List.map_map]
  exact List.map_congr_left (fun c _ => upperChar_idem c)

theorem isLowerStr_pyLower (s : List Char) : isLowerStr (pyLower s) :=
  pyLower_idem s

theorem isUpperStr_pyUpper (s : List Char) : isUpperStr (pyUpper s) :=
  pyUpper_idem s

theorem scrapeVfLine_guard_false (line : List Char) :
    ("vf ".data.isPrefixOf (pyStrOfBytes (pyStrip line))) = false := by
  unfold pyStrOfBytes
  by_cases h : '\'' ∈ pyStrip line ∧ '"' ∉ pyStrip line
  · rw [if_pos h]
    rfl
  · rw [if_neg h]
    rfl

/-- In Python 3 the guard `str(line).startswith('vf ')` never holds —
`str` of a bytes object renders as `b'...'` — so the scraping loop
never records any VF MAC. -/
theorem scrapeVfMacs_eq (lines : List (List Char))
    (virt : List (Int × VfInfo)) : scrapeVfMacs lines virt = some virt := by
  induction lines with
  | nil => rfl
  | cons line rest ih =>
    show (match scrapeVfLine line virt with
          | none => none
          | some v => scrapeVfMacs rest v) = some virt
    unfold scrapeVfLine
    rw [scrapeVfLine_guard_false line]
    simpa using ih

/-- C8 (code bug): the VF MAC scraping loop never extracts a MAC — for
every command output the loop leaves the VF table unchanged, because
`str(line)` of a Python 3 bytes line renders as `b'...'`, which never
starts with `vf ` — and on the failing input the unreconciled VF
record therefore ends with no MAC at all instead of retaining the
scraped `aa:bb:cc:dd:ee:0f`. -/
theorem c8_vf_mac_never_scraped :
    (∀ lines virt, scrapeVfMacs lines virt = some virt)
    ∧ get_interfaces vfEnv = some [("p0".data,
        ⟨true, "02:00:17:00:00:01".data, some ("0000:00:03.0".data), none,
         some [(0, ⟨"0000:00:04.0".data, none⟩)]⟩)] := by
  exact ⟨scrapeVfMacs_eq, by decide⟩

theorem mem_updateAssoc {α β : Type} [DecidableEq α]
    (l : List (α × β)) (k : α) (v : β) :
    ∀ x ∈ updateAssoc l k v, x ∈ l ∨ x = (k, v) := by
  induction l with
  | nil =>
    intro x hx
    simp [updateAssoc] at hx
    right
    simp [hx]
  | cons p rest ih =>
    intro x hx
    by_cases h : p.1 = k
    · rw [show (p :: rest : List (α × β)) = (p.1, p.2) :: rest from by simp,
        updateAssoc, if_pos h] at hx
      rcases List.mem_cons.mp hx with hx | hx
      · right; rw [hx, h]
      · left; exact List.mem_cons_of_mem _ hx
    · rw [show (p :: rest : List (α × β)) = (p.1, p.2) :: rest from by simp,
        updateAssoc, if_neg h] at hx
      rcases List.mem_cons.mp hx with hx | hx
      · left; rw [hx]; exact List.mem_cons_self _ _
      · rcases ih x hx with hh | hh
        · left; exact List.mem_cons_of_mem _ hh
        · right; exact hh

theorem lookupAssoc_mem {α β : Type} [DecidableEq α]
    (l : List (α × β)) (k : α) (v : β)
    (h : lookupAssoc l k = some v) : (k, v) ∈ l := by
  induction l with
  | nil => simp [lookupAssoc] at h
  | cons p rest ih =>
    rw [show (p :: rest : List (α × β)) = (p.1, p.2) :: rest from by simp,
      lookupAssoc] at h
    by_cases hk : p.1 = k
    · rw [if_pos hk] at h
      injection h with h
      have hp : (k, v) = p := by
        rw [← hk, ← h]
      rw [hp]
      exact List.mem_cons_self _ _
    · rw [if_neg hk] at h
      exact List.mem_cons_of_mem _ (ih h)

theorem buildVirtfnsAux_none (env : SysEnv) (n : List Char) :
    ∀ ds virt virt2, buildVirtfnsAux env n ds virt = some virt2 →
      (∀ kv ∈ virt, kv.2.mac = none) → ∀ kv ∈ virt2, kv.2.mac = none := by
  intro ds
  induction ds with
  | nil =>
    intro virt virt2 h hv
    injection h with h
    rw [← h]
    exact hv
  | cons d rest ih =>
    intro virt virt2 h hv
    by_cases hd : ("virtfn".data.isPrefixOf d) = true
    · rw [buildVirtfnsAux, if_pos hd] at h
      rcases hp : parseInt (d.drop 6) with _ | num
      · rw [hp] at h; exact absurd h (by simp)
      · rw [hp] at h
        refine ih _ _ h ?_
        intro kv hkv
        rcases mem_updateAssoc _ _ _ kv hkv with hm | hm
        · exact hv kv hm
        · rw [hm]
    · rw [buildVirtfnsAux, if_neg hd] at h
      exact ih _ _ h hv

theorem processDev_inv (env : SysEnv) (n : List Char)
    (info : IfaceInfo) (pe : Option (List Char))
    (h : processDev env n = some (some (info, pe))) :
    (∃ s, info.mac = pyLower s)
    ∧ (∀ vfs, info.virtfns = some vfs → ∀ kv ∈ vfs, kv.2.mac = none) := by
  rcases hil : env.ifaceLink n with _ | link <;>
    simp only [processDev, hil] at h
  · exact absurd h (by simp)
  · by_cases hv : ("../../devices/virtual".data.isPrefixOf link) = true
    · rw [if_pos hv] at h
      simp only [Option.some.injEq, Prod.mk.injEq] at h
      rw [← h.1]
      exact ⟨⟨_, rfl⟩, by intro vfs hvfs; exact absurd hvfs (by simp)⟩
    · rw [if_neg hv] at h
      rcases hpf : env.physfnLink n with _ | phys <;> simp only [hpf] at h
      · rcases hb : buildVirtfnsAux env n (env.devDirs n) [] with _ | virt <;>
          simp only [hb] at h
        · exact absurd h (by simp)
        · simp only [scrapeVfMacs_eq] at h
          simp only [Option.some.injEq, Prod.mk.injEq] at h
          rw [← h.1]
          refine ⟨⟨_, rfl⟩, ?_⟩
          intro vfs hvfs kv hkv
          have : virt = vfs := by
            simpa using hvfs
          exact buildVirtfnsAux_none env n _ [] virt hb (by simp)
            kv (this ▸ hkv)
      · simp only [Option.some.injEq, Prod.mk.injEq] at h
        rw [← h.1]
        exact ⟨⟨_, rfl⟩, by intro vfs hvfs; exact absurd hvfs (by simp)⟩

theorem pass1_inv (env : SysEnv) :
    ∀ devs ret pmap out, retInv ret →
      pass1 env devs ret pmap = some out → retInv out.1 := by
  intro devs
  induction devs with
  | nil =>
    intro ret pmap out hinv h
    simp only [pass1, Option.some.injEq] at h
    rw [← h]
    exact hinv
  | cons n rest ih =>
    intro ret pmap out hinv h
    rcases hd : processDev env n with _ | (_ | ⟨info, pe⟩) <;>
      simp only [pass1, hd] at h
    · exact absurd h (by simp)
    · exact ih _ _ _ hinv h
    · refine ih _ _ _ ?_ h
      intro p hp
      rcases mem_updateAssoc _ _ _ p hp with hm | hm
      · exact hinv p hm
      · rw [hm]
        exact processDev_inv env n info pe hd

theorem mergeInfo_mac (li : Option LinkRec) (ii : Option IpRec)
    (idx dev : List Char) (rec : NsLinkRecord)
    (h : mergeInfo li ii idx dev = some rec) :
    rec.mac = li.map LinkRec.mac := by
  rcases li with _ | l <;> rcases ii with _ | i
  · simp [mergeInfo] at h
  · simp only [mergeInfo, Option.some.injEq] at h
    rw [← h]
  · simp only [mergeInfo, Option.some.injEq] at h
    rw [← h]
  · simp only [mergeInfo, Option.some.injEq] at h
    rw [← h]

theorem fetch_link_info_mac (q : Option (List LinkObj)) (lr : LinkRec)
    (h : fetch_link_info q = some lr) : ∃ s, lr.mac = pyUpper s := by
  rcases q with _ | (_ | ⟨obj, rest⟩) <;>
    simp only [fetch_link_info, Option.some.injEq] at h
  · exact absurd h (by simp)
  · exact absurd h (by simp)
  · exact ⟨obj.address, by rw [← h]⟩

/-- C10: MAC casing differs between the two enumerations: every MAC in
the mapping returned by `get_interfaces` — including the values
back-filled into virtual-function records by the reconciliation pass —
is lowercase, while every MAC in the link records returned by
`get_network_namespace_infos` is uppercase. -/
theorem c10_mac_casing :
    (∀ env ret, get_interfaces env = some ret →
      ∀ p ∈ ret, isLowerStr p.2.mac
        ∧ (∀ vfs, p.2.virtfns = some vfs →
            ∀ kv ∈ vfs, ∀ m, kv.2.mac = some m → isLowerStr m))
    ∧ (∀ env nsrec rec m, nsrec ∈ get_network_namespace_infos env →
        rec ∈ nsrec.2 → rec.mac = some m → isUpperStr m) := by
  constructor
  · intro env ret hret p hp
    rcases hpass : pass1 env env.netDevs [] [] with _ | ⟨ret1, pmap⟩ <;>
      simp only [get_interfaces, hpass, Option.some.injEq] at hret
    · exact absurd hret (by simp)
    · have hinv : retInv ret1 :=
        pass1_inv env env.netDevs [] [] ⟨ret1, pmap⟩ (by intro p hp; simp at hp)
          hpass
      rw [← hret] at hp
      unfold pass2 at hp
      obtain ⟨q, hq, hfq⟩ := List.mem_map.mp hp
      have hqinv := hinv q hq
      by_cases hphys : q.2.physical = false
      · rw [if_pos hphys] at hfq
        rw [← hfq]
        obtain ⟨s, hs⟩ := hqinv.1
        refine ⟨by rw [hs]; exact isLowerStr_pyLower s, ?_⟩
        intro vfs hvfs kv hkv m hm
        rw [hqinv.2 vfs hvfs kv hkv] at hm
        exact absurd hm (by simp)
      · rw [if_neg hphys] at hfq
        rcases hvf : q.2.virtfns with _ | vfs0 <;> simp only [hvf] at hfq
        · rw [← hfq]
          obtain ⟨s, hs⟩ := hqinv.1
          refine ⟨by rw [hs]; exact isLowerStr_pyLower s, ?_⟩
          intro vfs hvfs kv hkv m hm
          rw [hqinv.2 vfs hvfs kv hkv] at hm
          exact absurd hm (by simp)
        · rw [← hfq]
          obtain ⟨s, hs⟩ := hqinv.1
          refine ⟨by simp only []; rw [hs]; exact isLowerStr_pyLower s, ?_⟩
          intro vfs hvfs kv hkv m hm
          have hvfs2 : vfs = vfs0.map
              (fun kv => (kv.1, reconcileVf ret1 pmap kv.2)) := by
            simpa using hvfs.symm
          rw [hvfs2] at hkv
          obtain ⟨kv0, hkv0, hkveq⟩ := List.mem_map.mp hkv
          have hmac0 : kv0.2.mac = none := hqinv.2 vfs0 hvf kv0 hkv0
          rw [← hkveq] at hm
          unfold reconcileVf at hm
          rcases hlp : lookupAssoc pmap kv0.2.pci_id with _ | ifname <;>
            simp only [hlp] at hm
          · rw [hmac0] at hm
            exact absurd hm (by simp)
          · rcases hlr : lookupAssoc ret1 ifname with _ | info2 <;>
              simp only [hlr] at hm
            · rw [hmac0] at hm
              exact absurd hm (by simp)
            · have hm2 : info2.mac = m := by simpa using hm
              obtain ⟨s2, hs2⟩ := (hinv (ifname, info2)
                (lookupAssoc_mem ret1 ifname info2 hlr)).1
              rw [← hm2, hs2]
              exact isLowerStr_pyLower s2
  · intro env nsrec rec m hns hrec hmac
    unfold get_network_namespace_infos at hns
    obtain ⟨ns2, _, heq⟩ := List.mem_map.mp hns
    have h2 : processLinks env ns2 (env.links ns2) = nsrec.2 :=
      congrArg Prod.snd heq
    rw [← h2] at hrec
    unfold processLinks at hrec
    obtain ⟨p, _, hmerge⟩ := List.mem_filterMap.mp hrec
    have hmm := mergeInfo_mac _ _ _ _ _ hmerge
    rw [hmm] at hmac
    rcases hfl : fetch_link_info (env.linkCmd ns2 p.2) with _ | lr <;>
      rw [hfl] at hmac
    · exact absurd hmac (by simp)
    · obtain ⟨s, hs⟩ := fetch_link_info_mac _ _ hfl
      have : lr.mac = m := by simpa using hmac
      rw [← this, hs]
      exact isUpperStr_pyUpper s

/-- Witness for `c10_mac_casing` at concrete environments: the
`get_interfaces` MAC of `p0` is lowercase and the namespace-inspector
MAC of the VLAN link is uppercase. -/
theorem c10_mac_casing_witness :
    isLowerStr ("02:00:17:00:00:01".data) ∧ isUpperStr ("AA:BB".data) :=
  ⟨(c10_mac_casing.1 vfEnv
      [("p0".data, ⟨true, "02:00:17:00:00:01".data, some ("0000:00:03.0".data),
        none, some [(0, ⟨"0000:00:04.0".data, none⟩)]⟩)]
      (by decide)
      ("p0".data, ⟨true, "02:00:17:00:00:01".data, some ("0000:00:03.0".data),
        none, some [(0, ⟨"0000:00:04.0".data, none⟩)]⟩)
      (by decide)).1,
   c10_mac_casing.2 vlanEnv ([], [vlanRec]) vlanRec ("AA:BB".data)
     (by decide) (by decide) rfl⟩

end NetworkHelpers
